import Mathlib

/-!
Verification development for the quote-catalogue backend (`Gas.QuoteApi`).

The embedded operations are translated from the Elixir source of the
`Gas.QuoteApi` module:

* `create_with_tags` — an `Ecto.Multi` pipeline run by `Repo.transaction`:
  insert the quote row from the input minus `:tags`, then (in a merged
  multi) parse every tag to an integer with `String.to_integer` and
  bulk-insert the association rows, all inside one transaction that rolls
  back on any failure;
* `full_text_search` — builds a `union` of one ilike sub-query per
  (table, column) pair of a fixed configuration, executes it, reshapes and
  groups the rows, logs that aggregation, and then returns a hard-coded
  literal payload;
* `get_quotes_by` — no filter returns all quotes, a `%{source: id}` filter
  inner-joins quotes to their source with `s.id == id`.

Storage is modelled as explicit lists of rows with the transaction acting
as a pure state transformer that returns the unchanged state on every
failure path.  Elixir values that are "string or integer" are modelled by
`StrOrInt`; a raised exception is modelled by the `CreateOutcome.raised`
constructor, distinct from the `{:error, step, changeset, partial}` tuple
modelled by `CreateOutcome.multiError`.
-/

/-- An Elixir value that the API accepts either as a string or an integer
(tag ids and `source_id` in `create_with_tags`'s `@spec`). -/
inductive StrOrInt where
  | str (s : String)
  | int (n : Int)
deriving DecidableEq, Repr

/-- Digits of a decimal literal; `none` unless the list is nonempty and
all characters are decimal digits. -/
def digitsToNat : List Char → Option Nat
  | [] => none
  | cs =>
    if cs.all Char.isDigit then
      some (cs.foldl (fun acc c => acc * 10 + (c.toNat - 48)) 0)
    else
      none

/-- `String.to_integer/1` (Erlang `binary_to_integer`): an optional sign
followed by one or more decimal digits; anything else raises, modelled by
`none`. -/
def elixirStrToInt (s : String) : Option Int :=
  match s.data with
  | '-' :: rest => (digitsToNat rest).map (fun n => -(n : Int))
  | '+' :: rest => (digitsToNat rest).map (fun n => (n : Int))
  | cs => (digitsToNat cs).map (fun n => (n : Int))

/-- `String.to_integer("#{x}")` applied to a tag-list element: an integer
interpolates to its decimal text and parses back to itself; a string must
parse as an integer literal, otherwise an `ArgumentError` is raised
(modelled by `none`). -/
def parseTagId : StrOrInt → Option Int
  | StrOrInt.int n => some n
  | StrOrInt.str s => elixirStrToInt s

/-- Ecto cast of an id field (`source_id`) from the input value: integers
pass through, strings are parsed; a non-numeric string fails the cast,
which makes the changeset invalid (a typed error, not a raise). -/
def castId : StrOrInt → Option Int
  | StrOrInt.int n => some n
  | StrOrInt.str s => elixirStrToInt s

/-- A row of the `quotes` table (`Gas.Quote` schema). -/
structure QuoteRow where
  id : Int
  text : String
  date : Option String
  page_start : Option Int
  page_end : Option Int
  volume : Option String
  issue : Option String
  extras : Option String
  source_id : Int
deriving DecidableEq, Repr

/-- A row of the `sources` table. -/
structure SourceRow where
  id : Int
  author : String
  topic : String
  publication : Option String
  url : Option String
  source_type_id : Int
deriving DecidableEq, Repr

/-- A row of the `tags` table. -/
structure TagRow where
  id : Int
  text : String
deriving DecidableEq, Repr

/-- A row of the `source_types` table. -/
structure SourceTypeRow where
  id : Int
  name : String
deriving DecidableEq, Repr

/-- A row of the `quote_tags` association table, as built by the merged
multi: `[tag_id: ..., quote_id: ..., inserted_at: now, updated_at: now]`. -/
structure QuoteTagRow where
  tag_id : Int
  quote_id : Int
  inserted_at : Nat
  updated_at : Nat
deriving DecidableEq, Repr

/-- The relational store behind `Gas.Repo`: one list of rows per table,
plus the `quotes` id sequence and a clock supplying `Timex.now()`. -/
structure DB where
  quotes : List QuoteRow
  sources : List SourceRow
  tags : List TagRow
  source_types : List SourceTypeRow
  quote_tags : List QuoteTagRow
  next_quote_id : Int
  clock : Nat
deriving DecidableEq, Repr

/-- The empty store. -/
def emptyDB : DB := ⟨[], [], [], [], [], 1, 0⟩

/-- The input map of `create_with_tags`; every key may be absent. -/
structure QuoteInputMap where
  tags : Option (List StrOrInt)
  text : Option String
  source_id : Option StrOrInt
  date : Option String
  page_start : Option Int
  page_end : Option Int
  volume : Option String
  issue : Option String
  extras : Option String
deriving DecidableEq, Repr

/-- An input map with only `tags`, `text` and `source_id` set. -/
def mkInput (tags : Option (List StrOrInt)) (text : Option String)
    (source_id : Option StrOrInt) : QuoteInputMap :=
  ⟨tags, text, source_id, none, none, none, none, none, none⟩

/-- The data a valid quote changeset carries into the insert. -/
structure ChangesetData where
  text : String
  source_id : Int
  date : Option String
  page_start : Option Int
  page_end : Option Int
  volume : Option String
  issue : Option String
  extras : Option String
deriving DecidableEq, Repr

/-- Modelled from the spec: `Gas.Quote.changeset` is not under `src/`;
per the spec's validation rules the changeset requires a non-empty `text`
and a castable `source_id`, and casts the remaining optional fields
through unchanged.  `none` is an invalid changeset (a typed
`{:error, :quote, changeset, ...}` from `Multi.insert`, no row touched). -/
def quoteChangeset (m : QuoteInputMap) : Option ChangesetData :=
  match m.text, m.source_id with
  | some t, some v =>
    if t = "" then none
    else
      match castId v with
      | some sid =>
        some ⟨t, sid, m.date, m.page_start, m.page_end, m.volume, m.issue, m.extras⟩
      | none => none
  | _, _ => none

/-- The exceptions the call can raise through `Repo.transaction` (which
rolls the transaction back and re-raises). -/
inductive ExnKind where
  | functionClauseError
  | argumentError
  | dbConstraintError
deriving DecidableEq, Repr

/-- The observable outcome of calling `create_with_tags`:
`{:ok, %{quote: q, quote_tags: n}}`, a typed
`{:error, step, changeset, partial}` tuple naming the failed step, or a
raised exception. -/
inductive CreateOutcome where
  | ok (q : QuoteRow) (quote_tags : Nat)
  | multiError (step : String)
  | raised (e : ExnKind)
deriving DecidableEq, Repr

/-- Whether the outcome is the `{:ok, ...}` tuple. -/
def CreateOutcome.isOk : CreateOutcome → Bool
  | CreateOutcome.ok _ _ => true
  | _ => false

/-- `Enum.map(tags, &String.to_integer("#{&1}"))`, fused with the failure:
`none` as soon as any element fails to parse (the Elixir map raises at the
first bad element and the transaction rolls back). -/
def parseAllTags : List StrOrInt → Option (List Int)
  | [] => some []
  | t :: ts =>
    match parseTagId t, parseAllTags ts with
    | some n, some ns => some (n :: ns)
    | _, _ => none

/-- The quote row step `:quote` inserts: the changeset data plus the id
drawn from the `quotes` id sequence. -/
def mkNewQuote (db : DB) (cs : ChangesetData) : QuoteRow :=
  ⟨db.next_quote_id, cs.text, cs.date, cs.page_start, cs.page_end,
    cs.volume, cs.issue, cs.extras, cs.source_id⟩

/-- `create_with_tags/1`, the whole `Ecto.Multi` pipeline under
`Repo.transaction`, as a pure state transformer.  The single function
clause matches only maps with a `:tags` key — any other map raises a
`FunctionClauseError`.  Step `:quote` inserts the changeset of the input
minus `:tags` (invalid changeset: typed error; `source_id` foreign key
violated at the storage layer: typed error naming the step, modelled from
the spec since the constraint declaration is not under `src/`).  The
merged multi parses every tag (`ArgumentError` raise on failure) and
bulk-inserts the association rows, whose `tag_id` foreign key raises a
constraint error when a tag does not exist; `insert_all` reports the
inserted-row count.  Every failure path returns the store unchanged:
the transaction rolls back. -/
def create_with_tags (m : QuoteInputMap) (db : DB) : CreateOutcome × DB :=
  match m.tags with
  | none => (CreateOutcome.raised ExnKind.functionClauseError, db)
  | some tags =>
    match quoteChangeset m with
    | none => (CreateOutcome.multiError "quote", db)
    | some cs =>
      if db.sources.any (fun s => s.id == cs.source_id) then
        let q : QuoteRow := mkNewQuote db cs
        match parseAllTags tags with
        | none => (CreateOutcome.raised ExnKind.argumentError, db)
        | some ids =>
          if ids.all (fun t => db.tags.any (fun tg => tg.id == t)) then
            let now := db.clock
            let assocs := ids.map (fun t => QuoteTagRow.mk t q.id now now)
            (CreateOutcome.ok q ids.length,
              { db with
                  quotes := db.quotes ++ [q]
                  quote_tags := db.quote_tags ++ assocs
                  next_quote_id := db.next_quote_id + 1 })
          else
            (CreateOutcome.raised ExnKind.dbConstraintError, db)
      else
        (CreateOutcome.multiError "quote", db)

/-- The static search configuration of `full_text_search`, a map from
table name to its searchable columns.  The Elixir literal is a small map,
which `Enum.flat_map` iterates in Erlang term order of its binary keys:
`"quotes" < "source_types" < "sources" < "tags"`. -/
def searchConfig : List (String × List String) :=
  [("quotes", ["text", "volume", "issue", "extras"]),
   ("source_types", ["name"]),
   ("sources", ["author", "topic", "publication", "url"]),
   ("tags", ["text"])]

/-- One sub-query of the union, the interpolated heredoc
`select id, <col> as text, '<table>' as source from <table>\nwhere <col> ilike $1\n`. -/
def subQuerySql (table col : String) : String :=
  "select id, " ++ col ++ " as text, '" ++ table ++ "' as source from " ++
    table ++ "\nwhere " ++ col ++ " ilike $1\n"

/-- The flattened (table, column) pairs of the configuration, in the
order `Enum.flat_map` produces them. -/
def searchPairs : List (String × String) :=
  searchConfig.flatMap (fun p => p.2.map (fun c => (p.1, c)))

/-- The single SQL statement executed by `full_text_search`: all
sub-queries joined with `" union "`. -/
def fullSearchSql : String :=
  String.intercalate " union " (searchPairs.map (fun p => subQuerySql p.1 p.2))

/-- The parameter list bound to the statement: the input text wrapped in a
substring pattern, `params = ["%#{text}%"]`. -/
def fullSearchParams (text : String) : List String :=
  ["%" ++ text ++ "%"]

/-- Case-fold a string for case-insensitive matching. -/
def lowerChars (s : String) : List Char :=
  s.data.map Char.toLower

/-- The denotation of `<value> ilike <pattern>` for the patterns this
module builds — `"%" ++ inner ++ "%"` with no further metacharacters —
i.e. case-insensitive substring containment of `inner` in `value`.
(`NULL` columns never reach this test: see `subQueryRows`.) -/
def ilikeWrapped (pattern value : String) : Bool :=
  decide (((pattern.data.drop 1).dropLast.map Char.toLower) <:+: lowerChars value)

/-- The searchable column values of a `quotes` row; optional columns are
`NULL` when absent, and `NULL ilike _` is not true. -/
def quoteColVal (col : String) (q : QuoteRow) : Option String :=
  match col with
  | "text" => some q.text
  | "volume" => q.volume
  | "issue" => q.issue
  | "extras" => q.extras
  | _ => none

/-- The searchable column values of a `sources` row. -/
def sourceColVal (col : String) (s : SourceRow) : Option String :=
  match col with
  | "author" => some s.author
  | "topic" => some s.topic
  | "publication" => s.publication
  | "url" => s.url
  | _ => none

/-- The searchable column value of a `tags` row. -/
def tagColVal (col : String) (t : TagRow) : Option String :=
  match col with
  | "text" => some t.text
  | _ => none

/-- The searchable column value of a `source_types` row. -/
def sourceTypeColVal (col : String) (st : SourceTypeRow) : Option String :=
  match col with
  | "name" => some st.name
  | _ => none

/-- A raw result row of the executed statement:
`select id, <col> as text, '<table>' as source`. -/
structure RawRow where
  id : Int
  text : String
  source : String
deriving DecidableEq, Repr

/-- The rows one sub-query `select id, <col> as text, '<table>' as source
from <table> where <col> ilike $1` produces over the store. -/
def subQueryRows (db : DB) (table col pattern : String) : List RawRow :=
  match table with
  | "quotes" =>
    db.quotes.filterMap (fun q =>
      (quoteColVal col q).bind (fun v =>
        if ilikeWrapped pattern v then some ⟨q.id, v, "quotes"⟩ else none))
  | "sources" =>
    db.sources.filterMap (fun s =>
      (sourceColVal col s).bind (fun v =>
        if ilikeWrapped pattern v then some ⟨s.id, v, "sources"⟩ else none))
  | "tags" =>
    db.tags.filterMap (fun t =>
      (tagColVal col t).bind (fun v =>
        if ilikeWrapped pattern v then some ⟨t.id, v, "tags"⟩ else none))
  | "source_types" =>
    db.source_types.filterMap (fun st =>
      (sourceTypeColVal col st).bind (fun v =>
        if ilikeWrapped pattern v then some ⟨st.id, v, "source_types"⟩ else none))
  | _ => []

/-- `Repo.execute_and_load(sql, params)` for the statement this module
builds: the `union` of the sub-queries over every configured
(table, column) pair.  SQL `union` (not `union all`) has set semantics, so
duplicates are removed; the engine's row order is unspecified and is
modelled as first-occurrence order. -/
def execUnionRows (db : DB) (pattern : String) : List RawRow :=
  (searchPairs.flatMap (fun p => subQueryRows db p.1 p.2 pattern)).dedup

/-- The four origin tables, the atoms `String.to_existing_atom` yields
for the `source` column of a result row. -/
inductive TableName where
  | quotes
  | sources
  | tags
  | source_types
deriving DecidableEq, Repr

/-- `String.to_existing_atom` on the table-name literals this query
emits; any other string raises (modelled by `none`, never reached on the
rows the statement produces). -/
def tableOfString (s : String) : Option TableName :=
  match s with
  | "quotes" => some TableName.quotes
  | "sources" => some TableName.sources
  | "tags" => some TableName.tags
  | "source_types" => some TableName.source_types
  | _ => none

/-- A result row after the Elixir mapping: string keys become the atoms
`:id`, `:text`, `:source`, and the `source` value becomes an existing
atom. -/
structure ParsedRow where
  id : Int
  text : String
  source : TableName
deriving DecidableEq, Repr

/-- The `Enum.map` over the loaded rows converting keys and the `source`
value to atoms. -/
def parseRows (rows : List RawRow) : List ParsedRow :=
  rows.filterMap (fun r =>
    (tableOfString r.source).map (fun t => ⟨r.id, r.text, t⟩))

/-- Canonical key order used to present the grouped map (an Elixir map
has no observable key order). -/
def tableOrder : List TableName :=
  [TableName.quotes, TableName.sources, TableName.tags, TableName.source_types]

/-- `Enum.group_by(rows, & &1.source)`: a map holding one key per source
value that actually occurs, each with its rows in occurrence order —
groups with no rows are absent, exactly as `group_by` omits them. -/
def groupBySource (rows : List ParsedRow) : List (TableName × List ParsedRow) :=
  tableOrder.filterMap (fun t =>
    let l := rows.filter (fun r => r.source == t)
    if l.isEmpty then none else some (t, l))

/-- The live aggregation `full_text_search` computes and logs: execute
the union statement with the `%text%` pattern, atomise the rows, group by
source. -/
def computedAggregation (text : String) (db : DB) : List (TableName × List ParsedRow) :=
  groupBySource (parseRows (execUnionRows db ("%" ++ text ++ "%")))

/-- A value of the returned Elixir map: an integer, a string, or an
atom naming a table. -/
inductive RVal where
  | i (n : Int)
  | s (v : String)
  | a (t : TableName)
deriving DecidableEq, Repr

/-- An Elixir map observed as an association list of atom keys (written
as strings) to values; key presence is observable. -/
def RRow : Type := List (String × RVal)

instance : DecidableEq RRow := by
  unfold RRow
  infer_instance

/-- The keys of a returned map. -/
def rrowKeys (r : RRow) : List String :=
  r.map (fun p => p.1)

/-- Key lookup in a returned map. -/
def rrowGet (r : RRow) (k : String) : Option RVal :=
  (r.find? (fun p => p.1 == k)).map (fun p => p.2)

/-- The hard-coded quote rows of the literal the function returns. -/
def hcQuotesRows : List RRow :=
  [[("id", RVal.i 13), ("source", RVal.a TableName.quotes),
    ("text", RVal.s ("The most frequently used gasification reactors encountered in practice are fixed bed(updraft or downdraft) and fluidised bed (bubbling or circulating) reactors. Figure 2shows the working principle of these gasifier configurations. "))],
   [("id", RVal.i 17), ("source", RVal.a TableName.quotes),
    ("text", RVal.s ("All products pass through a high temperature reaction\nzone at the base of the reactor, which explains why the tar level in downdraft\ngasifiers tends to stay below 0.1% (1 g Nm-³)."))],
   [("id", RVal.i 20), ("source", RVal.a TableName.quotes),
    ("text", RVal.s ("The product gas of fluidised bed reactors contains intermediate (between updraft and downdraft) tar\nlevels (∼10 g Nm-³)."))],
   [("id", RVal.i 16), ("source", RVal.a TableName.quotes),
    ("text", RVal.s ("In the downdraft (co-current) configuration, the feedstock is supplied from\nthe top while gas is introduced at the sides above the grate. The raw product gas is\nwithdrawn below the grate."))]]

/-- The hard-coded tag rows of the literal the function returns. -/
def hcTagsRows : List RRow :=
  [[("id", RVal.i 19), ("source", RVal.a TableName.tags),
    ("text", RVal.s ("Disadvantage of downdraft gasifier"))],
   [("id", RVal.i 18), ("source", RVal.a TableName.tags),
    ("text", RVal.s ("Advantage of downdraft gasifier"))],
   [("id", RVal.i 17), ("source", RVal.a TableName.tags),
    ("text", RVal.s ("Description downdraft gasifier"))]]

/-- The literal map `full_text_search` returns: only a `quotes` and a
`tags` bucket, with fixed rows about downdraft gasifiers. -/
def hardcodedPayload : List (String × List RRow) :=
  [("quotes", hcQuotesRows), ("tags", hcTagsRows)]

/-- Bucket lookup in the returned payload. -/
def payloadGet (p : List (String × List RRow)) (k : String) : Option (List RRow) :=
  (p.find? (fun b => b.1 == k)).map (fun b => b.2)

/-- What one call of `full_text_search` executes, logs and returns. -/
structure FTSCall where
  sql : String
  params : List String
  logged : List (TableName × List ParsedRow)
  returned : List (String × List RRow)

/-- `full_text_search/1`: build the union statement and its single
`%text%` parameter, execute and load it, atomise and group the rows,
log that aggregation (`Logger.info`), and then return the hard-coded
literal map — not the computed value. -/
def full_text_search (text : String) (db : DB) : FTSCall :=
  ⟨fullSearchSql, fullSearchParams text, computedAggregation text db,
    hardcodedPayload⟩

/-- The argument map of `get_quotes_by/1` (`%{source: id}`). -/
structure GetQuotesInput where
  source : Option Int
deriving DecidableEq, Repr

/-- `get_quotes_by/1`:
`get_quotes_by(nil)` is `Repo.all(Quote)`; otherwise the `:source` key,
when present, inner-joins the quotes to `assoc(q, :source)` with the
extra condition `s.id == ^id` (one output row per matching (quote,
source) pair, selecting the quote), and the query is run with
`Repo.all`. -/
def get_quotes_by : Option GetQuotesInput → DB → List QuoteRow
  | none, db => db.quotes
  | some inputs, db =>
    match inputs.source with
    | none => db.quotes
    | some sid =>
      db.quotes.flatMap (fun q =>
        (db.sources.filter (fun s => s.id == q.source_id && s.id == sid)).map
          (fun _ => q))

/-- The tag ids a successful creation request declared: the parses of its
tag list. -/
def declaredTags (m : QuoteInputMap) : List Int :=
  match m.tags with
  | some ts => (parseAllTags ts).getD []
  | none => []

/-- A system state: the store plus the ghost creation log recording, for
each quote created by a successful `create_with_tags`, its id and the tag
ids declared at its creation. -/
structure Sys where
  db : DB
  log : List (Int × List Int)

/-- Run one `create_with_tags` call against the system, recording the
declared tags of a successful creation in the ghost log. -/
def applyCreate (m : QuoteInputMap) (sys : Sys) : Sys :=
  match create_with_tags m sys.db with
  | (CreateOutcome.ok q _, db') => ⟨db', (q.id, declaredTags m) :: sys.log⟩
  | (_, db') => ⟨db', sys.log⟩

/-- The operations that build reachable states in this core: seeding the
referenced tables (tags, sources and source types are created by other
contexts) and `create_with_tags` — per the spec, quotes are created only
through this operation and update/delete are out of scope. -/
inductive SysStep : Sys → Sys → Prop where
  | seedSource (db : DB) (log : List (Int × List Int)) (s : SourceRow) :
      SysStep ⟨db, log⟩ ⟨{ db with sources := s :: db.sources }, log⟩
  | seedTag (db : DB) (log : List (Int × List Int)) (t : TagRow) :
      SysStep ⟨db, log⟩ ⟨{ db with tags := t :: db.tags }, log⟩
  | seedSourceType (db : DB) (log : List (Int × List Int)) (st : SourceTypeRow) :
      SysStep ⟨db, log⟩ ⟨{ db with source_types := st :: db.source_types }, log⟩
  | create (sys : Sys) (m : QuoteInputMap) :
      SysStep sys (applyCreate m sys)

/-- The states reachable from the empty store with an empty log. -/
inductive Reachable : Sys → Prop where
  | init : Reachable ⟨emptyDB, []⟩
  | step {s s' : Sys} : Reachable s → SysStep s s' → Reachable s'

/-- An association row linking tag `t` to quote `qid` exists in the
store (timestamps ignored). -/
def hasAssoc (db : DB) (t qid : Int) : Bool :=
  db.quote_tags.any (fun a => a.tag_id == t && a.quote_id == qid)

/-- The cross-table consistency invariant: every stored quote has a
creation-log entry all of whose declared tag associations exist, and for
every logged creation the quote row exists if and only if all of its
declared associations exist. -/
def quoteTagInvariant (sys : Sys) : Prop :=
  (∀ q ∈ sys.db.quotes, ∃ e ∈ sys.log,
      e.1 = q.id ∧ ∀ t ∈ e.2, hasAssoc sys.db t q.id = true) ∧
  (∀ e ∈ sys.log,
      ((∃ q ∈ sys.db.quotes, q.id = e.1) ↔ (∀ t ∈ e.2, hasAssoc sys.db t e.1 = true)))

/-- The inductive strengthening of `quoteTagInvariant`: every stored
quote has a creation-log entry with its id, and every logged creation
still has its quote row and all of its declared association rows. -/
def strongInv (sys : Sys) : Prop :=
  (∀ q ∈ sys.db.quotes, ∃ e ∈ sys.log, e.1 = q.id) ∧
  (∀ e ∈ sys.log,
    (∃ q ∈ sys.db.quotes, q.id = e.1) ∧ ∀ t ∈ e.2, hasAssoc sys.db t e.1 = true)

/-- Whether the outcome is the typed `{:error, step, changeset, partial}`
tuple (as opposed to `{:ok, ...}` or a raised exception). -/
def CreateOutcome.isTypedError : CreateOutcome → Bool
  | CreateOutcome.multiError _ => true
  | _ => false

/-- Every element of the tag list parses to an integer id of an existing
tag row. -/
def tagsResolve (db : DB) (ts : List StrOrInt) : Bool :=
  ts.all (fun x =>
    match parseTagId x with
    | some n => db.tags.any (fun tg => tg.id == n)
    | none => false)

/-- The parsed tag ids of a tag list (empty when some element fails to
parse; used only under a hypothesis that parsing succeeds). -/
def parsedTagIds (ts : List StrOrInt) : List Int :=
  (parseAllTags ts).getD []

instance : Inhabited RRow := ⟨[]⟩

/-- The (table, column) pairs of the search configuration as the claim
enumerates them: quotes' four columns, sources' four, tags' one and
source_types' one. -/
def claimSearchPairs : List (String × String) :=
  [("quotes", "text"), ("quotes", "volume"), ("quotes", "issue"), ("quotes", "extras"),
   ("sources", "author"), ("sources", "topic"), ("sources", "publication"), ("sources", "url"),
   ("tags", "text"), ("source_types", "name")]

/-- The key set every row this module produces actually has. -/
def rowShapeKeys : List String := ["id", "source", "text"]

/-- A store holding one source (id 1): enough for the quote insert to
succeed so that the merged multi's tag parsing is reached. -/
def c5db : DB := ⟨[], [⟨1, "a", "t", none, none, 1⟩], [], [], [], 1, 0⟩

/-- An input whose tag list holds an element that does not parse to an
integer. -/
def c5input : QuoteInputMap :=
  mkInput (some [StrOrInt.str "abc"]) (some "cool quote") (some (StrOrInt.int 1))

/-- A store with one source (id 1) and two tags (ids 5 and 7). -/
def c2db : DB :=
  ⟨[], [⟨1, "a", "t", none, none, 1⟩], [⟨5, "five"⟩, ⟨7, "seven"⟩], [], [], 1, 0⟩

/-- A fully valid input: text, an existing source and two resolvable
tags, one given as a string and one as an integer. -/
def c2input : QuoteInputMap :=
  mkInput (some [StrOrInt.str "5", StrOrInt.int 7]) (some "hello") (some (StrOrInt.str "1"))

/-- A valid input with an empty tag list. -/
def c10input : QuoteInputMap :=
  mkInput (some []) (some "hello") (some (StrOrInt.str "1"))

/-- A store with two sources and three quotes split across them, for the
filtered-read witness. -/
def c7db : DB :=
  ⟨[⟨1, "q1", none, none, none, none, none, none, 1⟩,
    ⟨2, "q2", none, none, none, none, none, none, 2⟩,
    ⟨3, "q3", none, none, none, none, none, none, 1⟩],
   [⟨1, "a", "t", none, none, 1⟩, ⟨2, "b", "u", none, none, 1⟩],
   [], [], [], 4, 0⟩

theorem parseAllTags_cons (t : StrOrInt) (ts : List StrOrInt) :
    parseAllTags (t :: ts) =
      match parseTagId t, parseAllTags ts with
      | some n, some ns => some (n :: ns)
      | _, _ => none := rfl

/-- Parsing succeeds with one id per element, each id the parse of some
element, and — when every element resolves to an existing tag — all ids
pass the tag foreign-key check. -/
theorem tagsResolve_parse (db : DB) :
    ∀ ts : List StrOrInt, tagsResolve db ts = true →
      ∃ ids : List Int, parseAllTags ts = some ids ∧
        ids.all (fun t => db.tags.any (fun tg => tg.id == t)) = true ∧
        ids.length = ts.length ∧
        ∀ i ∈ ids, ∃ x ∈ ts, parseTagId x = some i := by
  intro ts
  induction ts with
  | nil =>
    intro _
    exact ⟨[], rfl, rfl, rfl, by simp⟩
  | cons t ts ih =>
    intro h
    rw [tagsResolve, List.all_cons] at h
    rcases Bool.and_eq_true_iff.mp h with ⟨h1, h2⟩
    rcases hp : parseTagId t with _ | n
    · rw [hp] at h1; cases h1
    · rw [hp] at h1
      rcases ih h2 with ⟨ids, hids, hfk, hlen, hmem⟩
      refine ⟨n :: ids, ?_, ?_, ?_, ?_⟩
      · rw [parseAllTags_cons, hp, hids]
      · rw [List.all_cons, hfk, Bool.and_true]; exact h1
      · simp [hlen]
      · intro i hi
        rcases List.mem_cons.mp hi with hi | hi
        · exact ⟨t, List.mem_cons_self t ts, by rw [hp, hi]⟩
        · rcases hmem i hi with ⟨x, hx, hxp⟩
          exact ⟨x, List.mem_cons_of_mem t hx, hxp⟩

/-- If any element of the tag list fails to parse, the whole parse
fails. -/
theorem parseAllTags_none_of_bad :
    ∀ (ts : List StrOrInt) (x : StrOrInt), x ∈ ts → parseTagId x = none →
      parseAllTags ts = none := by
  intro ts
  induction ts with
  | nil => intro x hx; cases hx
  | cons t ts ih =>
    intro x hx hbad
    rcases List.mem_cons.mp hx with hx | hx
    · rw [parseAllTags_cons, ← hx, hbad]
    · rw [parseAllTags_cons, ih x hx hbad]
      rcases parseTagId t with _ | n <;> rfl

/-- Every failing call leaves the store unchanged (the transaction rolls
back): either the outcome is `{:ok, ...}` or the post-state equals the
pre-state. -/
theorem create_with_tags_ok_or_unchanged (m : QuoteInputMap) (db : DB) :
    (create_with_tags m db).1.isOk = true ∨ (create_with_tags m db).2 = db := by
  unfold create_with_tags
  split
  · right; rfl
  · split
    · right; rfl
    · split
      · dsimp only
        split
        · right; rfl
        · split
          · left; rfl
          · right; rfl
      · right; rfl

theorem create_with_tags_fail_state (m : QuoteInputMap) (db : DB)
    (h : (create_with_tags m db).1.isOk = false) :
    (create_with_tags m db).2 = db := by
  rcases create_with_tags_ok_or_unchanged m db with h' | h'
  · rw [h'] at h; cases h
  · exact h'

/-- The successful run, fully characterised: one new quote row appended,
one association row per parsed tag id appended, the id sequence bumped,
and the `{:ok, %{quote: q, quote_tags: count}}` result. -/
theorem create_with_tags_success (m : QuoteInputMap) (db : DB)
    (ts : List StrOrInt) (cs : ChangesetData) (ids : List Int)
    (htags : m.tags = some ts) (hcs : quoteChangeset m = some cs)
    (hsrc : db.sources.any (fun s => s.id == cs.source_id) = true)
    (hids : parseAllTags ts = some ids)
    (hfk : ids.all (fun t => db.tags.any (fun tg => tg.id == t)) = true) :
    create_with_tags m db =
      (CreateOutcome.ok (mkNewQuote db cs) ids.length,
        { db with
            quotes := db.quotes ++ [mkNewQuote db cs]
            quote_tags := db.quote_tags ++
              ids.map (fun t => QuoteTagRow.mk t db.next_quote_id db.clock db.clock)
            next_quote_id := db.next_quote_id + 1 }) := by
  unfold create_with_tags
  rw [htags, hcs]
  simp only [hsrc, hids, hfk, if_true]
  simp [mkNewQuote]

/-- Full case analysis of one call: either it fails and leaves the store
unchanged, or all steps succeed and the call is the characterised
successful run. -/
theorem create_with_tags_spec (m : QuoteInputMap) (db : DB) :
    ((create_with_tags m db).1.isOk = false ∧ (create_with_tags m db).2 = db) ∨
    (∃ ts cs ids, m.tags = some ts ∧ quoteChangeset m = some cs ∧
      db.sources.any (fun s => s.id == cs.source_id) = true ∧
      parseAllTags ts = some ids ∧
      ids.all (fun t => db.tags.any (fun tg => tg.id == t)) = true ∧
      create_with_tags m db =
        (CreateOutcome.ok (mkNewQuote db cs) ids.length,
          { db with
              quotes := db.quotes ++ [mkNewQuote db cs]
              quote_tags := db.quote_tags ++
                ids.map (fun t => QuoteTagRow.mk t db.next_quote_id db.clock db.clock)
              next_quote_id := db.next_quote_id + 1 })) := by
  rcases htags : m.tags with _ | ts
  · left
    unfold create_with_tags
    simp only [htags]
    constructor <;> first | rfl | trivial
  · rcases hcs : quoteChangeset m with _ | cs
    · left
      unfold create_with_tags
      simp only [htags, hcs]
      constructor <;> first | rfl | trivial
    · by_cases hsrc : (db.sources.any fun s => s.id == cs.source_id) = true
      · rcases hids : parseAllTags ts with _ | ids
        · left
          unfold create_with_tags
          simp only [htags, hcs, hids, hsrc, if_true]
          constructor <;> first | rfl | trivial
        · by_cases hfk : (ids.all fun t => db.tags.any fun tg => tg.id == t) = true
          · right
            refine ⟨ts, cs, ids, ?_, ?_, hsrc, hids, hfk,
              create_with_tags_success m db ts cs ids htags hcs hsrc hids hfk⟩
            · rfl
            · rfl
          · left
            unfold create_with_tags
            simp only [htags, hcs, hids, hsrc, if_true]
            rw [if_neg hfk]
            exact ⟨rfl, rfl⟩
      · left
        unfold create_with_tags
        simp only [htags, hcs]
        rw [if_neg hsrc]
        exact ⟨rfl, rfl⟩

/-- A failing call leaves the whole system (store and ghost log)
unchanged. -/
theorem applyCreate_of_fail (m : QuoteInputMap) (sys : Sys)
    (hfail : (create_with_tags m sys.db).1.isOk = false) :
    applyCreate m sys = sys := by
  have hunch := create_with_tags_fail_state m sys.db hfail
  unfold applyCreate
  rcases hout : create_with_tags m sys.db with ⟨out, db'⟩
  rw [hout] at hfail hunch
  cases out with
  | ok q n => simp [CreateOutcome.isOk] at hfail
  | multiError st =>
    dsimp only
    dsimp only at hunch
    rw [hunch]
  | raised e =>
    dsimp only
    dsimp only at hunch
    rw [hunch]

theorem strongInv_applyCreate (m : QuoteInputMap) (sys : Sys)
    (h : strongInv sys) : strongInv (applyCreate m sys) := by
  rcases create_with_tags_spec m sys.db with ⟨hfail, _⟩ |
    ⟨ts, cs, ids, htags, hcs, hsrc, hids, hfk, heq⟩
  · rw [applyCreate_of_fail m sys hfail]
    exact h
  · have hdecl : declaredTags m = ids := by
      unfold declaredTags
      rw [htags]
      dsimp only
      rw [hids]
      rfl
    have happ : applyCreate m sys =
        ⟨{ sys.db with
             quotes := sys.db.quotes ++ [mkNewQuote sys.db cs]
             quote_tags := sys.db.quote_tags ++
               ids.map (fun t =>
                 QuoteTagRow.mk t sys.db.next_quote_id sys.db.clock sys.db.clock)
             next_quote_id := sys.db.next_quote_id + 1 },
          ((mkNewQuote sys.db cs).id, ids) :: sys.log⟩ := by
      unfold applyCreate
      rw [heq]
      dsimp only
      rw [hdecl]
    rw [happ]
    obtain ⟨h1, h2⟩ := h
    constructor
    · intro q hq
      rcases List.mem_append.mp hq with hq | hq
      · rcases h1 q hq with ⟨e, he, hid⟩
        exact ⟨e, List.mem_cons_of_mem _ he, hid⟩
      · have hq' : q = mkNewQuote sys.db cs := by
          rcases List.mem_singleton.mp hq with rfl
          rfl
        exact ⟨((mkNewQuote sys.db cs).id, ids), List.mem_cons_self _ _, by rw [hq']⟩
    · intro e he
      rcases List.mem_cons.mp he with he | he
      · subst he
        constructor
        · exact ⟨mkNewQuote sys.db cs,
            List.mem_append.mpr (Or.inr (List.mem_singleton.mpr rfl)), rfl⟩
        · intro t ht
          unfold hasAssoc
          dsimp only
          have hmem : (ids.map (fun t2 =>
              QuoteTagRow.mk t2 sys.db.next_quote_id sys.db.clock sys.db.clock)).any
              (fun a => a.tag_id == t && a.quote_id == (mkNewQuote sys.db cs).id) = true := by
            rw [List.any_eq_true]
            refine ⟨QuoteTagRow.mk t sys.db.next_quote_id sys.db.clock sys.db.clock,
              List.mem_map.mpr ⟨t, ht, rfl⟩, ?_⟩
            simp [mkNewQuote]
          rw [List.any_append, hmem, Bool.or_true]
      · rcases h2 e he with ⟨⟨q0, hq0, hq0id⟩, hass⟩
        constructor
        · exact ⟨q0, List.mem_append.mpr (Or.inl hq0), hq0id⟩
        · intro t ht
          have hold := hass t ht
          unfold hasAssoc at hold ⊢
          dsimp only
          rw [List.any_append, hold]
          rfl

theorem strongInv_step {s s' : Sys} (hstep : SysStep s s') (h : strongInv s) :
    strongInv s' := by
  cases hstep with
  | seedSource db log src => exact h
  | seedTag db log t => exact h
  | seedSourceType db log st => exact h
  | create =>
    rename_i m2
    exact strongInv_applyCreate m2 s h

theorem reachable_strongInv : ∀ sys : Sys, Reachable sys → strongInv sys := by
  intro sys h
  induction h with
  | init =>
    constructor
    · intro q hq
      exact absurd hq (List.not_mem_nil q)
    · intro e he
      exact absurd he (List.not_mem_nil e)
  | step r st ih => exact strongInv_step st ih

theorem strongInv_implies_invariant (sys : Sys) (h : strongInv sys) :
    quoteTagInvariant sys := by
  obtain ⟨h1, h2⟩ := h
  constructor
  · intro q hq
    rcases h1 q hq with ⟨e, he, hid⟩
    refine ⟨e, he, hid, ?_⟩
    intro t ht
    have := (h2 e he).2 t ht
    rw [hid] at this
    exact this
  · intro e he
    constructor
    · intro _
      exact (h2 e he).2
    · intro _
      exact (h2 e he).1

/-- Under unique source ids, an inner join of one quote against the
sources on `s.id == q.source_id && s.id == S` yields the quote exactly
once when `q.source_id = S` and its source exists, and nothing
otherwise. -/
theorem join_one_quote (ss : List SourceRow) (S : Int) (q : QuoteRow)
    (hnd : (ss.map (fun s => s.id)).Nodup)
    (hfk : ss.any (fun s => s.id == q.source_id) = true) :
    (ss.filter (fun s => s.id == q.source_id && s.id == S)).map (fun _ => q) =
      if q.source_id == S then [q] else [] := by
  by_cases hqS : (q.source_id == S) = true
  · have hS : q.source_id = S := by
      exact eq_of_beq hqS
    rw [if_pos hqS]
    have hpred : ∀ s ∈ ss, (s.id == q.source_id && s.id == S) = (s.id == S) := by
      intro s _
      rw [hS]
      exact Bool.and_self _
    rw [List.filter_congr hpred]
    rcases List.any_eq_true.mp hfk with ⟨s0, hs0, hs0id⟩
    have hs0S : s0.id = S := by
      have : s0.id = q.source_id := eq_of_beq hs0id
      rw [this, hS]
    induction ss with
    | nil => cases hs0
    | cons s1 ss1 ih =>
      rw [List.map_cons, List.nodup_cons] at hnd
      obtain ⟨hnotin, hnd1⟩ := hnd
      rcases List.mem_cons.mp hs0 with rfl | hs0'
      · rw [List.filter_cons_of_pos (by rw [hs0S]; exact beq_self_eq_true S)]
        have hempty : ss1.filter (fun s => s.id == S) = [] := by
          rw [List.filter_eq_nil_iff]
          intro a ha hcontra
          apply hnotin
          have haS : a.id = S := eq_of_beq hcontra
          have hsa : s0.id = a.id := by rw [hs0S, haS]
          rw [hsa]
          exact List.mem_map.mpr ⟨a, ha, rfl⟩
        rw [hempty]
        rfl
      · have hs1S : (s1.id == S) = false := by
          rcases hb : s1.id == S with _ | _
          · rfl
          · exfalso
            apply hnotin
            have h1 : s1.id = S := eq_of_beq hb
            rw [h1, ← hs0S]
            exact List.mem_map.mpr ⟨s0, hs0', rfl⟩
        rw [List.filter_cons_of_neg (by rw [hs1S]; exact Bool.false_ne_true)]
        exact ih hnd1 (List.any_eq_true.mpr ⟨s0, hs0', hs0id⟩)
          (fun s hs => hpred s (List.mem_cons_of_mem s1 hs)) hs0'
  · rw [if_neg hqS]
    have hempty : ss.filter (fun s => s.id == q.source_id && s.id == S) = [] := by
      rw [List.filter_eq_nil_iff]
      intro a _ hcontra
      rcases Bool.and_eq_true_iff.mp hcontra with ⟨h1, h2⟩
      apply hqS
      have e1 : a.id = q.source_id := eq_of_beq h1
      have e2 : a.id = S := eq_of_beq h2
      rw [← e1, e2]
      exact beq_self_eq_true S
    rw [hempty]
    rfl

/-- The inner join over all quotes equals the plain filter on
`source_id`, given unique source ids and quote-to-source referential
integrity. -/
theorem join_eq_filter (qs : List QuoteRow) (ss : List SourceRow) (S : Int)
    (hnd : (ss.map (fun s => s.id)).Nodup)
    (hfk : qs.all (fun q => ss.any (fun s => s.id == q.source_id)) = true) :
    qs.flatMap (fun q =>
      (ss.filter (fun s => s.id == q.source_id && s.id == S)).map (fun _ => q)) =
      qs.filter (fun q => q.source_id == S) := by
  induction qs with
  | nil => rfl
  | cons q qs ih =>
    rw [List.all_cons] at hfk
    obtain ⟨hq, hqs⟩ := Bool.and_eq_true_iff.mp hfk
    rw [List.flatMap_cons, ih hqs, join_one_quote ss S q hnd hq, List.filter_cons]
    by_cases hqS : (q.source_id == S) = true
    · rw [if_pos hqS, if_pos hqS]
      rfl
    · rw [if_neg hqS, if_neg hqS]
      rfl

/-- C1: atomicity of `create_with_tags` — whenever any step fails (quote
validation, tag parsing, or association insert), the post-state equals
the pre-state, so no quote row and no association rows from the call
exist; and at every reachable state a quote row exists iff all of the tag
associations declared at its creation also exist. -/
theorem claim_c1_create_with_tags_atomicity :
    (∀ (m : QuoteInputMap) (db : DB), (create_with_tags m db).1.isOk = false →
      (create_with_tags m db).2 = db) ∧
    (∀ sys : Sys, Reachable sys → quoteTagInvariant sys) :=
  ⟨fun m db h => create_with_tags_fail_state m db h,
   fun sys h => strongInv_implies_invariant sys (reachable_strongInv sys h)⟩

/-- Witness for C1: a concrete failing call (unknown source) leaves the
concrete store unchanged, and a concrete reachable state satisfies the
invariant. -/
theorem claim_c1_create_with_tags_atomicity_witness :
    (create_with_tags (mkInput (some [StrOrInt.str "abc"]) (some "") (some (StrOrInt.int 1)))
        emptyDB).2 = emptyDB ∧
    quoteTagInvariant ⟨emptyDB, []⟩ :=
  ⟨claim_c1_create_with_tags_atomicity.1 _ _ (by decide),
   claim_c1_create_with_tags_atomicity.2 _ Reachable.init⟩

/-- C9: `create_with_tags` has a single function clause matching only
maps with a `:tags` key, so a call on a map without it raises a
`FunctionClauseError` (and the store is untouched), rather than returning
any `{:ok, ...}` or `{:error, ...}` value. -/
theorem claim_c9_function_clause (m : QuoteInputMap) (db : DB) (h : m.tags = none) :
    create_with_tags m db = (CreateOutcome.raised ExnKind.functionClauseError, db) := by
  unfold create_with_tags
  rw [h]

/-- Witness for C9 at a concrete tag-less input map. -/
theorem claim_c9_function_clause_witness :
    (mkInput none (some "cool quote") (some (StrOrInt.int 1))).tags = none ∧
    create_with_tags (mkInput none (some "cool quote") (some (StrOrInt.int 1))) emptyDB =
      (CreateOutcome.raised ExnKind.functionClauseError, emptyDB) :=
  ⟨rfl, claim_c9_function_clause _ emptyDB rfl⟩

/-- C5 fails as stated: at this concrete input whose tag list holds the
unparsable element `"abc"` (valid text, existing source), the call does
abort the transaction, but the failure is a raised `ArgumentError` from
`String.to_integer`, re-raised through `Repo.transaction` — not the typed
`{:error, step, changeset, partial}` failure value the claim promises. -/
theorem claim_c5_counterexample :
    c5input.tags = some [StrOrInt.str "abc"] ∧
    parseTagId (StrOrInt.str "abc") = none ∧
    create_with_tags c5input c5db = (CreateOutcome.raised ExnKind.argumentError, c5db) ∧
    (create_with_tags c5input c5db).1.isTypedError = false := by
  refine ⟨rfl, rfl, by decide, by decide⟩

/-- C5 (amended): for every input whose tag list contains an element
that does not parse to an integer, the whole transaction aborts — the
store is unchanged — and, whenever the quote-insert step itself succeeds
(valid changeset, existing source), the failure surfaces as a raised
`ArgumentError`, not as a typed failure value. -/
theorem claim_c5_unparsable_tag_aborts (m : QuoteInputMap) (db : DB)
    (ts : List StrOrInt) (x : StrOrInt)
    (htags : m.tags = some ts) (hx : x ∈ ts) (hbad : parseTagId x = none) :
    (create_with_tags m db).2 = db ∧
    (∀ cs, quoteChangeset m = some cs →
      db.sources.any (fun s => s.id == cs.source_id) = true →
      (create_with_tags m db).1 = CreateOutcome.raised ExnKind.argumentError) := by
  have hnone : parseAllTags ts = none := parseAllTags_none_of_bad ts x hx hbad
  constructor
  · rcases create_with_tags_spec m db with ⟨_, hunch⟩ |
      ⟨ts2, cs, ids, htags2, hcs, hsrc, hids, _, _⟩
    · exact hunch
    · rw [htags] at htags2
      injection htags2 with hts
      subst hts
      rw [hnone] at hids
      cases hids
  · intro cs hcs hsrc
    unfold create_with_tags
    simp only [htags, hcs, hsrc, if_true, hnone]

/-- Witness for the amended C5 at the concrete input of the
counterexample. -/
theorem claim_c5_unparsable_tag_aborts_witness :
    (create_with_tags c5input c5db).2 = c5db ∧
    (create_with_tags c5input c5db).1 = CreateOutcome.raised ExnKind.argumentError :=
  ⟨(claim_c5_unparsable_tag_aborts c5input c5db [StrOrInt.str "abc"] (StrOrInt.str "abc")
      rfl (by decide) (by decide)).1,
   (claim_c5_unparsable_tag_aborts c5input c5db [StrOrInt.str "abc"] (StrOrInt.str "abc")
      rfl (by decide) (by decide)).2
     ⟨"cool quote", 1, none, none, none, none, none, none⟩ (by decide) (by decide)⟩

/-- C2: on a fully valid input — non-empty text, an existing source, and
a tag list every element of which resolves to an existing tag — the call
appends exactly one new quote row, appends exactly `len(tags)`
association rows each linking the new quote's id to a parse of one of
the given tag elements, and returns `{:ok, %{quote: q, quote_tags:
len(tags)}}`. -/
theorem claim_c2_create_with_tags_success (m : QuoteInputMap) (db : DB)
    (ts : List StrOrInt) (t : String) (v : StrOrInt) (sid : Int)
    (htags : m.tags = some ts) (htext : m.text = some t) (hne : t ≠ "")
    (hsid : m.source_id = some v) (hcast : castId v = some sid)
    (hsrc : db.sources.any (fun s => s.id == sid) = true)
    (hres : tagsResolve db ts = true) :
    parseAllTags ts = some (parsedTagIds ts) ∧
    (parsedTagIds ts).length = ts.length ∧
    create_with_tags m db =
      (CreateOutcome.ok
        (mkNewQuote db ⟨t, sid, m.date, m.page_start, m.page_end, m.volume, m.issue, m.extras⟩)
        ts.length,
        { db with
            quotes := db.quotes ++
              [mkNewQuote db ⟨t, sid, m.date, m.page_start, m.page_end, m.volume, m.issue, m.extras⟩]
            quote_tags := db.quote_tags ++ (parsedTagIds ts).map
              (fun i => QuoteTagRow.mk i db.next_quote_id db.clock db.clock)
            next_quote_id := db.next_quote_id + 1 }) ∧
    (∀ a ∈ (parsedTagIds ts).map
        (fun i => QuoteTagRow.mk i db.next_quote_id db.clock db.clock),
      a.quote_id = db.next_quote_id ∧ ∃ x ∈ ts, parseTagId x = some a.tag_id) := by
  obtain ⟨ids, hids, hfk, hlen, hmem⟩ := tagsResolve_parse db ts hres
  have hcs : quoteChangeset m =
      some ⟨t, sid, m.date, m.page_start, m.page_end, m.volume, m.issue, m.extras⟩ := by
    unfold quoteChangeset
    rw [htext, hsid]
    dsimp only
    rw [if_neg hne, hcast]
  have hpar : parsedTagIds ts = ids := by
    unfold parsedTagIds
    rw [hids]
    rfl
  rw [hpar]
  refine ⟨hids, hlen, ?_, ?_⟩
  · have h := create_with_tags_success m db ts
      ⟨t, sid, m.date, m.page_start, m.page_end, m.volume, m.issue, m.extras⟩
      ids htags hcs hsrc hids hfk
    rw [hlen] at h
    exact h
  · intro a ha
    rcases List.mem_map.mp ha with ⟨i, hi, rfl⟩
    exact ⟨rfl, hmem i hi⟩

/-- Witness for C2 at a concrete store (source 1, tags 5 and 7) and the
concrete valid input `%{tags: ["5", 7], text: "hello", source_id: "1"}`. -/
theorem claim_c2_create_with_tags_success_witness :
    (create_with_tags c2input c2db).1 =
      CreateOutcome.ok (mkNewQuote c2db ⟨"hello", 1, none, none, none, none, none, none⟩) 2 := by
  have h := claim_c2_create_with_tags_success c2input c2db
    [StrOrInt.str "5", StrOrInt.int 7] "hello" (StrOrInt.str "1") 1
    rfl rfl (by decide) rfl (by decide) (by decide) (by decide)
  rw [h.2.2.1]
  exact rfl

/-- C10: an input with an empty tag list and otherwise valid quote
fields succeeds — exactly one quote row is appended, the association
table is untouched, and the result is `{:ok, ...}` with an association
count of 0. -/
theorem claim_c10_empty_tag_list (m : QuoteInputMap) (db : DB)
    (t : String) (v : StrOrInt) (sid : Int)
    (htags : m.tags = some []) (htext : m.text = some t) (hne : t ≠ "")
    (hsid : m.source_id = some v) (hcast : castId v = some sid)
    (hsrc : db.sources.any (fun s => s.id == sid) = true) :
    create_with_tags m db =
      (CreateOutcome.ok
        (mkNewQuote db ⟨t, sid, m.date, m.page_start, m.page_end, m.volume, m.issue, m.extras⟩) 0,
        { db with
            quotes := db.quotes ++
              [mkNewQuote db ⟨t, sid, m.date, m.page_start, m.page_end, m.volume, m.issue, m.extras⟩]
            quote_tags := db.quote_tags
            next_quote_id := db.next_quote_id + 1 }) := by
  have hcs : quoteChangeset m =
      some ⟨t, sid, m.date, m.page_start, m.page_end, m.volume, m.issue, m.extras⟩ := by
    unfold quoteChangeset
    rw [htext, hsid]
    dsimp only
    rw [if_neg hne, hcast]
  have h := create_with_tags_success m db []
    ⟨t, sid, m.date, m.page_start, m.page_end, m.volume, m.issue, m.extras⟩
    [] htags hcs hsrc rfl rfl
  simpa using h

/-- Witness for C10 at the concrete input `%{tags: [], text: "hello",
source_id: "1"}` against the store with source 1. -/
theorem claim_c10_empty_tag_list_witness :
    create_with_tags c10input c2db =
      (CreateOutcome.ok (mkNewQuote c2db ⟨"hello", 1, none, none, none, none, none, none⟩) 0,
        { c2db with
            quotes := c2db.quotes ++
              [mkNewQuote c2db ⟨"hello", 1, none, none, none, none, none, none⟩]
            quote_tags := c2db.quote_tags
            next_quote_id := c2db.next_quote_id + 1 }) :=
  claim_c10_empty_tag_list c10input c2db "hello" (StrOrInt.str "1") 1
    rfl rfl (by decide) rfl (by decide) (by decide)

/-- C7: `get_quotes_by(nil)` returns every quote in storage, and, under
unique source ids and quote-to-source referential integrity (the
storage-layer constraints), `get_quotes_by(%{source: S})` returns exactly
the quotes whose `source_id` equals `S`, for every `S`. -/
theorem claim_c7_get_quotes_by (db : DB) (S : Int)
    (hnd : (db.sources.map (fun s => s.id)).Nodup)
    (hfk : db.quotes.all (fun q => db.sources.any (fun s => s.id == q.source_id)) = true) :
    get_quotes_by none db = db.quotes ∧
    get_quotes_by (some ⟨some S⟩) db = db.quotes.filter (fun q => q.source_id == S) := by
  constructor
  · rfl
  · unfold get_quotes_by
    exact join_eq_filter db.quotes db.sources S hnd hfk

/-- Witness for C7 at a concrete store with two sources and three
quotes. -/
theorem claim_c7_get_quotes_by_witness :
    get_quotes_by none c7db = c7db.quotes ∧
    get_quotes_by (some ⟨some 1⟩) c7db = c7db.quotes.filter (fun q => q.source_id == 1) :=
  claim_c7_get_quotes_by c7db 1 (by decide) (by decide)

/-- C3: `full_text_search` computes the grouped aggregation of the live
query results and logs it, yet unconditionally returns the fixed literal
map — four hard-coded quote rows and three hard-coded tag rows about
downdraft gasifiers — so the returned value is identical for any two
inputs and never depends on the computed aggregation. -/
theorem claim_c3_hardcoded_return (t : String) (db : DB) :
    (full_text_search t db).logged = computedAggregation t db ∧
    (full_text_search t db).returned = hardcodedPayload ∧
    (∀ (t2 : String) (db2 : DB),
      (full_text_search t db).returned = (full_text_search t2 db2).returned) ∧
    (full_text_search t db).returned.map (fun b => b.1) = ["quotes", "tags"] ∧
    payloadGet (full_text_search t db).returned "quotes" = some hcQuotesRows ∧
    payloadGet (full_text_search t db).returned "tags" = some hcTagsRows ∧
    hcQuotesRows.length = 4 ∧ hcTagsRows.length = 3 :=
  ⟨rfl, rfl, fun _ _ => rfl, rfl, rfl, rfl, rfl, rfl⟩

/-- C6: the executed statement is the `" union "`-join of exactly one
sub-query per (table, column) pair of the fixed configuration — ten in
all, a permutation of the claim's enumeration — each sub-query of the
literal interpolated form, and the single bound parameter is the input
wrapped as `%text%`. -/
theorem claim_c6_query_construction (t : String) (db : DB) :
    (full_text_search t db).sql = fullSearchSql ∧
    (full_text_search t db).params = ["%" ++ t ++ "%"] ∧
    fullSearchSql =
      String.intercalate " union " (searchPairs.map (fun p => subQuerySql p.1 p.2)) ∧
    searchPairs.length = 10 ∧
    searchPairs.Perm claimSearchPairs ∧
    (∀ tab c : String, subQuerySql tab c =
      "select id, " ++ c ++ " as text, '" ++ tab ++ "' as source from " ++ tab ++
        "\nwhere " ++ c ++ " ilike $1\n") :=
  ⟨rfl, rfl, rfl, rfl, by decide, fun _ _ => rfl⟩

/-- C4 is what the code should do but does not: on an input matching no
row (the live aggregation over the empty store is empty), the returned
value still holds only a non-empty `quotes` bucket and a non-empty
`tags` bucket — the `sources` and `sourceTypes` buckets are absent, not
empty sequences, contradicting the four-bucket contract. -/
theorem claim_c4_bug_evidence :
    computedAggregation "zzz-no-such-substring-zzz" emptyDB = [] ∧
    (full_text_search "zzz-no-such-substring-zzz" emptyDB).returned.map (fun b => b.1) =
      ["quotes", "tags"] ∧
    payloadGet (full_text_search "zzz-no-such-substring-zzz" emptyDB).returned "sources" = none ∧
    payloadGet (full_text_search "zzz-no-such-substring-zzz" emptyDB).returned "sourceTypes" = none ∧
    payloadGet (full_text_search "zzz-no-such-substring-zzz" emptyDB).returned "source_types" = none ∧
    payloadGet (full_text_search "zzz-no-such-substring-zzz" emptyDB).returned "quotes" =
      some hcQuotesRows ∧
    hcQuotesRows ≠ [] :=
  ⟨rfl, rfl, rfl, rfl, rfl, rfl, by decide⟩

/-- C8 fails as stated: the first row of the `quotes` bucket returned by
the search at a concrete input has exactly the keys `id`, `source` and
`text` — there is no `tid` field and no `column` field naming the matched
column. -/
theorem claim_c8_counterexample :
    payloadGet (full_text_search "x" emptyDB).returned "quotes" = some hcQuotesRows ∧
    hcQuotesRows.headI ∈ hcQuotesRows ∧
    rrowKeys hcQuotesRows.headI = ["id", "source", "text"] ∧
    rrowGet hcQuotesRows.headI "tid" = none ∧
    rrowGet hcQuotesRows.headI "column" = none := by
  refine ⟨rfl, ?_, rfl, rfl, rfl⟩
  exact List.mem_cons_self _ _

/-- C8 (amended): every row the search operation returns is a map with
exactly the keys `id`, `source` and `text` — the origin-table row id in
`id`, the matched value in `text`, and the origin table as an enumerated
atom in `source`; no `tid` and no `column` field exist. -/
theorem claim_c8_row_shape (t : String) (db : DB) :
    ((full_text_search t db).returned.all
      (fun b => b.2.all (fun r => rrowKeys r == rowShapeKeys))) = true ∧
    ((full_text_search t db).returned.all
      (fun b => b.2.all (fun r =>
        match rrowGet r "source" with
        | some (RVal.a _) => true
        | _ => false))) = true :=
  ⟨rfl, rfl⟩
